import Mathlib

/-!
# Minishell: builtin classification/dispatch and shell-state teardown

A shallow embedding of `src/execution/execute/buildins_check.c` and
`src/utils/minishell_free.c`.

Memory is a finite store of objects addressed by natural numbers; address `0`
is `NULL`.  Every C function that touches memory becomes a function from a
store to `Except Fault Store`: a dereference of `NULL`, a read of an object that is
not (or no longer) in the store, and a `free` of such an object are faults.
Calls to `free` and to the six builtin handlers are recorded in a trace.
-/

set_option autoImplicit false

namespace Minishell

/-! ## Memory model -/

/-- A machine address; `0` is `NULL`. -/
abbrev Ptr := Nat

/-- Modelled from the spec: the types `t_minishell_data`, `t_ast` and `t_token` are declared
in `include/minishell.h`, which is not under `src/`.  An object is one allocation; of a
record only the fields the two source files read are kept (the spec: a command node holds
"an argument vector (`args[0]` = program name) and pipeline-linkage (`next`)"; the state owns
the line buffer, the environment vector, the token list and the command list). -/
inductive Block where
  /-- A `char` buffer, byte by byte (the C string it holds ends at the first `0`). -/
  | str (buf : List Nat)
  /-- A `char **` array, cell by cell. -/
  | vec (cells : List Ptr)
  /-- A `t_ast` node: `args` and `next`. -/
  | ast (args : Ptr) (next : Ptr)
  /-- A `t_token` node: its link. -/
  | tok (next : Ptr)
  /-- A `t_minishell_data` record: `readline`, `envp`, `tokens`, `cmds`. -/
  | mini (readline envp tokens cmds : Ptr)
  deriving DecidableEq, Repr

/-- The six builtin handlers `buildin_manager` can call, with the extra argument of
`ft_echo`. -/
inductive Handler where
  | ft_cd | ft_pwd | ft_echo (flag : Int) | ft_env | ft_unset | ft_export
  deriving DecidableEq, Repr

/-- An observable action: a successful `free(p)` of a live object, or a call of a
builtin handler on the shell state at `mini`. -/
inductive Event where
  | free (p : Ptr)
  | call (f : Handler) (mini : Ptr)
  deriving DecidableEq, Repr

/-- What can go wrong in a memory access. -/
inductive Fault where
  /-- Dereference of `NULL`. -/
  | nullDeref
  /-- Read through a pointer to no live object (dangling or wild). -/
  | invalidRead (p : Ptr)
  /-- Read of an object through a pointer of another type. -/
  | badType (p : Ptr)
  /-- Read of an array cell or of a string past the end of its object. -/
  | outOfBounds (p : Ptr)
  /-- A `free` of a pointer to no live object (double or invalid free). -/
  | invalidFree (p : Ptr)
  /-- The iteration budget of a loop of the model ran out. -/
  | outOfFuel
  deriving DecidableEq, Repr

deriving instance DecidableEq for Except

/-- The store: the live objects and the trace of events so far. -/
structure Store where
  mem : List (Ptr × Block)
  trace : List Event
  deriving DecidableEq, Repr

/-- The live object at `p`, if any. -/
def Store.find (h : Store) (p : Ptr) : Option Block :=
  h.mem.lookup p

/-- Dereference of `p`. -/
def deref (h : Store) (p : Ptr) : Except Fault Block :=
  if p = 0 then .error .nullDeref
  else match h.find p with
    | some b => .ok b
    | none => .error (.invalidRead p)

/-- The libc `free`: nothing on `NULL`; otherwise the object leaves the store and the
call is recorded; a pointer to no live object is a fault. -/
def free (h : Store) (p : Ptr) : Except Fault Store :=
  if p = 0 then .ok h
  else match h.find p with
    | some _ => .ok { mem := h.mem.filter (fun e => e.1 ≠ p), trace := h.trace ++ [Event.free p] }
    | none => .error (.invalidFree p)

/-- The four pointer fields of the `t_minishell_data` at `p`. -/
def readMini (h : Store) (p : Ptr) : Except Fault (Ptr × Ptr × Ptr × Ptr) :=
  match deref h p with
  | .error e => .error e
  | .ok (.mini r e t c) => .ok (r, e, t, c)
  | .ok _ => .error (.badType p)

/-- Read of `p->readline`. -/
def get_readline (h : Store) (p : Ptr) : Except Fault Ptr := (readMini h p).map (·.1)
/-- Read of `p->envp`. -/
def get_envp (h : Store) (p : Ptr) : Except Fault Ptr := (readMini h p).map (·.2.1)
/-- Read of `p->tokens`. -/
def get_tokens (h : Store) (p : Ptr) : Except Fault Ptr := (readMini h p).map (·.2.2.1)
/-- Read of `p->cmds`. -/
def get_cmds (h : Store) (p : Ptr) : Except Fault Ptr := (readMini h p).map (·.2.2.2)

/-- Read of `p->next` for a `t_ast *p`. -/
def ast_next (h : Store) (p : Ptr) : Except Fault Ptr :=
  match deref h p with
  | .error e => .error e
  | .ok (.ast _ nx) => .ok nx
  | .ok _ => .error (.badType p)

/-- Read of `p->args` for a `t_ast *p`. -/
def ast_args (h : Store) (p : Ptr) : Except Fault Ptr :=
  match deref h p with
  | .error e => .error e
  | .ok (.ast a _) => .ok a
  | .ok _ => .error (.badType p)

/-- Read of `p->next` for a `t_token *p`. -/
def tok_next (h : Store) (p : Ptr) : Except Fault Ptr :=
  match deref h p with
  | .error e => .error e
  | .ok (.tok nx) => .ok nx
  | .ok _ => .error (.badType p)

/-- Read of `args[i]` for a `char **args`. -/
def readCell (h : Store) (args : Ptr) (i : Nat) : Except Fault Ptr :=
  match deref h args with
  | .error e => .error e
  | .ok (.vec cells) =>
    match cells.get? i with
    | some p => .ok p
    | none => .error (.outOfBounds args)
  | .ok _ => .error (.badType args)

/-- The C string at `p`: the bytes of the buffer before its first `0`; a buffer with no
`0` is read past its end. -/
def readStr (h : Store) (p : Ptr) : Except Fault (List Nat) :=
  match deref h p with
  | .error e => .error e
  | .ok (.str buf) =>
    if 0 ∈ buf then .ok (buf.takeWhile (fun b => b ≠ 0)) else .error (.outOfBounds p)
  | .ok _ => .error (.badType p)

/-! ## libft -/

/-- Modelled from the spec: `ft_strncmp` belongs to libft, which is not under `src/`; it
is taken to behave as C `strncmp`.  The arguments are the contents of the two strings;
past the end of the contents stands the terminating `0`.  At most `n` positions are
compared, bytes as `unsigned char`, and the comparison stops at the first difference or
at a common terminator. -/
def ft_strncmp : List Nat → List Nat → Nat → Int
  | _, _, 0 => 0
  | s1, s2, n + 1 =>
    let a := s1.headD 0
    let b := s2.headD 0
    if a ≠ b then (a : Int) - (b : Int)
    else if a = 0 then 0
    else ft_strncmp s1.tail s2.tail n

/-- Modelled from the spec: `ft_strlen` belongs to libft, which is not under `src/`; it
is taken to behave as C `strlen`: the number of bytes before the first `0`. -/
def ft_strlen (s : List Nat) : Nat :=
  (s.takeWhile (fun b => b ≠ 0)).length

/-- The bytes of a string literal. -/
def lit (s : String) : List Nat := s.toList.map Char.toNat

/-! ## `buildins_check.c` -/

/-- The string `mini->cmds->args[0]`. -/
def arg0 (h : Store) (mini : Ptr) : Except Fault (List Nat) := do
  let cmds ← get_cmds h mini
  let args ← ast_args h cmds
  let s ← readCell h args 0
  readStr h s

/-- The classifier.  Each test compares `mini->cmds->args[0]` with an identifier over the
length of the identifier. -/
def buildin_manager_check (h : Store) (mini : Ptr) : Except Fault Int := do
  if ft_strncmp (← arg0 h mini) (lit "cd") 2 = 0 then
    return 1
  else if ft_strncmp (← arg0 h mini) (lit "pwd") 3 = 0 then
    return 1
  else if ft_strncmp (← arg0 h mini) (lit "echo") 4 = 0 then
    return 1
  else if ft_strncmp (← arg0 h mini) (lit "env") 3 = 0 then
    return 1
  else if ft_strncmp (← arg0 h mini) (lit "unset") 5 = 0 then
    return 1
  else if ft_strncmp (← arg0 h mini) (lit "export") 6 = 0 then
    return 1
  return 0

/-- Modelled from the spec: the handlers `ft_cd`, `ft_pwd`, `ft_echo`, `ft_env`, `ft_unset`
and `ft_export` are not under `src/`.  A call of handler `f` on the state at `mini` is
recorded in the trace; what the handler then does to the state is left out. -/
def invoke (h : Store) (f : Handler) (mini : Ptr) : Store :=
  { h with trace := h.trace ++ [Event.call f mini] }

/-- The dispatcher.  Each test compares `mini->cmds->args[0]` with an identifier over the
length of `mini->cmds->args[0]`. -/
def buildin_manager (h : Store) (mini : Ptr) : Except Fault Store := do
  if ft_strncmp (← arg0 h mini) (lit "cd") (ft_strlen (← arg0 h mini)) = 0 then
    return invoke h .ft_cd mini
  else if ft_strncmp (← arg0 h mini) (lit "pwd") (ft_strlen (← arg0 h mini)) = 0 then
    return invoke h .ft_pwd mini
  else if ft_strncmp (← arg0 h mini) (lit "echo") (ft_strlen (← arg0 h mini)) = 0 then
    return invoke h (.ft_echo 1) mini
  else if ft_strncmp (← arg0 h mini) (lit "env") (ft_strlen (← arg0 h mini)) = 0 then
    return invoke h .ft_env mini
  else if ft_strncmp (← arg0 h mini) (lit "unset") (ft_strlen (← arg0 h mini)) = 0 then
    return invoke h .ft_unset mini
  else if ft_strncmp (← arg0 h mini) (lit "export") (ft_strlen (← arg0 h mini)) = 0 then
    return invoke h .ft_export mini
  else
    return h

/-- The six builtin identifiers, in the order of the two else-if chains, each with its
handler. -/
def builtins : List (List Nat × Handler) :=
  [(lit "cd", .ft_cd), (lit "pwd", .ft_pwd), (lit "echo", .ft_echo 1),
   (lit "env", .ft_env), (lit "unset", .ft_unset), (lit "export", .ft_export)]

/-- A store in which `mini->cmds->args[0]` is a buffer holding `buf`. -/
def cmdStore (buf : List Nat) : Store :=
  { mem := [(1, .mini 0 0 0 2), (2, .ast 3 0), (3, .vec [4, 0]), (4, .str buf)],
    trace := [] }

/-! ## `minishell_free.c` -/

/-- The release of one string: `free` when the pointer is not `NULL`.  The closing
`str = NULL` assigns the parameter, a copy of the pointer of the caller, and is lost on
return. -/
def null_check_free_str (h : Store) (str : Ptr) : Except Fault Store := do
  let h ← if str ≠ 0 then free h str else pure h
  let _str : Ptr := 0
  return h

/-- The loop `while (args[i] != NULL) { null_check_free_str(args[i]); i++; }` of
`free_2d`, one iteration per unit of fuel. -/
def free_2d_loop : Nat → Store → Ptr → Nat → Except Fault Store
  | 0, _, _, _ => .error .outOfFuel
  | fuel + 1, h, args, i => do
    if (← readCell h args i) ≠ 0 then
      let h ← null_check_free_str h (← readCell h args i)
      free_2d_loop fuel h args (i + 1)
    else
      return h

/-- The release of a string vector: nothing on `NULL`; otherwise every cell up to the
first `NULL` cell, then the array.  The closing `args = NULL` assigns the parameter only.
Every iteration of the loop removes an object from the store, so one unit of fuel per
live object and one for the last test are enough.  The index `int i` is a natural number:
a vector has far fewer than `2^31` cells. -/
def free_2d (h : Store) (args : Ptr) : Except Fault Store := do
  let i : Nat := 0
  if args = 0 then
    return h
  let h ← free_2d_loop (h.mem.length + 1) h args i
  let h ← free h args
  let _args : Ptr := 0
  return h

/-- The loop of `free_cmd_list`: `temp = cmds; cmds = cmds->next; free(temp);` while
`cmds` is not `NULL`, one iteration per unit of fuel. -/
def free_cmd_list_loop : Nat → Store → Ptr → Except Fault Store
  | 0, _, _ => .error .outOfFuel
  | fuel + 1, h, cmds =>
    if cmds ≠ 0 then do
      let temp := cmds
      let cmds ← ast_next h cmds
      let h ← free h temp
      free_cmd_list_loop fuel h cmds
    else
      return h

/-- The release of a command list (`temp` starts as `NULL` and is assigned before its first
use).  Every iteration removes an object from the store, so one unit of fuel per live
object and one for the last test are enough. -/
def free_cmd_list (h : Store) (cmds : Ptr) : Except Fault Store :=
  free_cmd_list_loop (h.mem.length + 1) h cmds

/-- Modelled from the spec: the loop of `free_token_list` (not under `src/`), the walk of
`free_cmd_list` over `t_token` nodes, one iteration per unit of fuel. -/
def free_token_list_loop : Nat → Store → Ptr → Except Fault Store
  | 0, _, _ => .error .outOfFuel
  | fuel + 1, h, tokens =>
    if tokens ≠ 0 then do
      let temp := tokens
      let tokens ← tok_next h tokens
      let h ← free h temp
      free_token_list_loop fuel h tokens
    else
      return h

/-- Modelled from the spec: `free_token_list` is called by `free_mini_dto` and is not under
`src/`.  The spec has it "walk the list front-to-back, freeing each node after advancing
past it", the discipline of `free_cmd_list`. -/
def free_token_list (h : Store) (tokens : Ptr) : Except Fault Store :=
  free_token_list_loop (h.mem.length + 1) h tokens

/-- The teardown entry point.  Each field is read from the record at `mini_dto` and passed
by value to its release function; no field of the record is written.  The closing
`mini_dto = NULL` assigns the parameter only. -/
def free_mini_dto (h : Store) (mini_dto : Ptr) : Except Fault Store := do
  let mut h := h
  if mini_dto ≠ 0 then
    if (← get_readline h mini_dto) ≠ 0 then
      h ← null_check_free_str h (← get_readline h mini_dto)
    if (← get_envp h mini_dto) ≠ 0 then
      h ← free_2d h (← get_envp h mini_dto)
    if (← get_tokens h mini_dto) ≠ 0 then
      h ← free_token_list h (← get_tokens h mini_dto)
    if (← get_cmds h mini_dto) ≠ 0 then
      h ← free_cmd_list h (← get_cmds h mini_dto)
  let _mini_dto : Ptr := 0
  return h

/-- A fully populated shell state: the record at `1`, the line buffer at `2`, an
environment of one string at `3`, one token at `6`, one command node at `7` with its
argument vector at `8`. -/
def fullStore : Store :=
  { mem := [(1, .mini 2 3 6 7), (2, .str (lit "ls" ++ [0])),
            (3, .vec [4, 0]), (4, .str (lit "A=1" ++ [0])),
            (6, .tok 0),
            (7, .ast 8 0), (8, .vec [9, 0]), (9, .str (lit "ls" ++ [0]))],
    trace := [] }

/-- A shell state with a pending line at `2` and nothing else. -/
def lineStore : Store :=
  { mem := [(1, .mini 2 0 0 0), (2, .str (lit "ls" ++ [0]))], trace := [] }


/-! ## Predicates and sample states of the statements -/

/-- The identifiers of `builtins`. -/
def identifiers : List (List Nat) := builtins.map (fun e => e.1)

/-- The entry of `builtins` the dispatcher selects for `name`: the first one, in order, of
whose identifier `name` is a prefix. -/
def firstMatch (name : List Nat) : Option (List Nat × Handler) :=
  builtins.find? (fun e => decide (name <+: e.1))

/-- The store after the object at `p` has left it. -/
def Store.without (h : Store) (p : Ptr) : Store :=
  { mem := h.mem.filter (fun e => e.1 ≠ p), trace := h.trace ++ [Event.free p] }

/-- The store after the objects at `ps` have left it, in that order. -/
def Store.withoutAll (h : Store) (ps : List Ptr) : Store :=
  { mem := h.mem.filter (fun e => decide (e.1 ∉ ps)), trace := h.trace ++ ps.map Event.free }

/-- In store `h`, `p` heads a command list whose nodes are, front to back, `nodes`: every
node is a live `t_ast`, its `next` leads to the node after it, and the `next` of the last
node is `NULL`. -/
def IsCmdList (h : Store) : Ptr → List Ptr → Prop
  | p, [] => p = 0
  | p, q :: rest => p = q ∧ q ≠ 0 ∧ ∃ a nx, h.find q = some (.ast a nx) ∧ IsCmdList h nx rest

/-- In store `h`, `v` is a string vector holding the strings at `strs` before its sentinel:
the array is live and not `NULL`, its cells are `strs`, then a `NULL` cell, then whatever
lies past it; the strings are live `char` buffers, none `NULL`, no two the same. -/
def IsStrVec (h : Store) (v : Ptr) (strs : List Ptr) : Prop :=
  v ≠ 0 ∧ (∃ past, h.find v = some (.vec (strs ++ 0 :: past))) ∧
  (∀ s ∈ strs, s ≠ 0 ∧ ∃ buf, h.find s = some (.str buf)) ∧ strs.Nodup

/-- The state `lineStore` after one `free_mini_dto`: the record still points to the line
buffer, which is gone. -/
def lineStoreFreed : Store :=
  { mem := [(1, .mini 2 0 0 0)], trace := [.free 2] }

/-- The state `fullStore` after one `free_mini_dto`. -/
def fullStoreFreed : Store :=
  { mem := [(1, .mini 2 3 6 7), (8, .vec [9, 0]), (9, .str (lit "ls" ++ [0]))],
    trace := [.free 2, .free 4, .free 3, .free 6, .free 7] }

/-- A store with an environment vector of two strings at `3` and a command list of two
nodes at `7`. -/
def sampleStore : Store :=
  { mem := [(3, .vec [4, 5, 0]), (4, .str (lit "A=1" ++ [0])), (5, .str (lit "B=2" ++ [0])),
            (7, .ast 0 9), (9, .ast 0 0)],
    trace := [] }

/-! ## Facts about the strings -/

theorem ft_strncmp_ident (t : List Nat) (ht : ∀ b ∈ t, b ≠ 0) (s : List Nat) :
    ft_strncmp s t t.length = 0 ↔ t <+: s := by
  induction t generalizing s with
  | nil => simp [ft_strncmp]
  | cons b t ih =>
    have hb : b ≠ 0 := ht b (by simp)
    have ht2 : ∀ c ∈ t, c ≠ 0 := fun c hc => ht c (by simp [hc])
    cases s with
    | nil =>
      simp only [List.length_cons, ft_strncmp, List.headD_nil, List.headD_cons]
      simp [hb, Ne.symm hb]
    | cons a s =>
      simp only [List.length_cons, ft_strncmp, List.headD_cons, List.tail_cons]
      by_cases hab : a = b
      · subst hab
        simp [hb, ih ht2 s, List.cons_prefix_cons]
      · have : (a : Int) - (b : Int) ≠ 0 := by omega
        simp [hab, this, List.cons_prefix_cons, Ne.symm hab]

theorem ft_strncmp_arg (s : List Nat) (hs : ∀ b ∈ s, b ≠ 0) (t : List Nat) :
    ft_strncmp s t s.length = 0 ↔ s <+: t := by
  induction s generalizing t with
  | nil => simp [ft_strncmp]
  | cons a s ih =>
    have ha : a ≠ 0 := hs a (by simp)
    have hs2 : ∀ c ∈ s, c ≠ 0 := fun c hc => hs c (by simp [hc])
    cases t with
    | nil =>
      simp only [List.length_cons, ft_strncmp, List.headD_nil, List.headD_cons]
      simp [ha]
    | cons b t =>
      simp only [List.length_cons, ft_strncmp, List.headD_cons, List.tail_cons]
      by_cases hab : a = b
      · subst hab
        simp [ha, ih hs2 t, List.cons_prefix_cons]
      · have : (a : Int) - (b : Int) ≠ 0 := by omega
        simp [hab, this, List.cons_prefix_cons]

theorem takeWhile_ne_zero (buf : List Nat) : ∀ b ∈ buf.takeWhile (fun b => b ≠ 0), b ≠ 0 := by
  intro b hb
  have := List.mem_takeWhile_imp hb
  simpa using this

theorem ft_strlen_eq (s : List Nat) (hs : ∀ b ∈ s, b ≠ 0) : ft_strlen s = s.length := by
  unfold ft_strlen
  rw [List.takeWhile_eq_self_iff.mpr]
  intro b hb
  simpa using hs b hb

theorem readStr_ne_zero {h : Store} {p : Ptr} {s : List Nat} (hx : readStr h p = .ok s) :
    ∀ b ∈ s, b ≠ 0 := by
  unfold readStr at hx
  split at hx
  · cases hx
  · split at hx
    · cases hx
      exact takeWhile_ne_zero _
    · cases hx
  · cases hx

theorem arg0_ne_zero {h : Store} {mini : Ptr} {name : List Nat} (hx : arg0 h mini = .ok name) :
    ∀ b ∈ name, b ≠ 0 := by
  unfold arg0 at hx
  cases h1 : get_cmds h mini with
  | error e => rw [h1] at hx; cases hx
  | ok cmds =>
    cases h2 : ast_args h cmds with
    | error e => rw [h1] at hx; simp only [bind, Except.bind] at hx; rw [h2] at hx; cases hx
    | ok args =>
      cases h3 : readCell h args 0 with
      | error e =>
        rw [h1] at hx; simp only [bind, Except.bind] at hx; rw [h2] at hx
        simp only at hx; rw [h3] at hx; cases hx
      | ok sp =>
        rw [h1] at hx; simp only [bind, Except.bind] at hx; rw [h2] at hx
        simp only at hx; rw [h3] at hx
        exact readStr_ne_zero hx

theorem lit_ne_zero : ∀ t ∈ identifiers, ∀ b ∈ t, b ≠ 0 := by decide

theorem check_eq (h : Store) (mini : Ptr) (name : List Nat) (hx : arg0 h mini = .ok name) :
    buildin_manager_check h mini =
      .ok (if lit "cd" <+: name ∨ lit "pwd" <+: name ∨ lit "echo" <+: name ∨
            lit "env" <+: name ∨ lit "unset" <+: name ∨ lit "export" <+: name then 1 else 0) := by
  have e1 := ft_strncmp_ident (lit "cd") (lit_ne_zero _ (by decide)) name
  have e2 := ft_strncmp_ident (lit "pwd") (lit_ne_zero _ (by decide)) name
  have e3 := ft_strncmp_ident (lit "echo") (lit_ne_zero _ (by decide)) name
  have e4 := ft_strncmp_ident (lit "env") (lit_ne_zero _ (by decide)) name
  have e5 := ft_strncmp_ident (lit "unset") (lit_ne_zero _ (by decide)) name
  have e6 := ft_strncmp_ident (lit "export") (lit_ne_zero _ (by decide)) name
  have l1 : (lit "cd").length = 2 := by decide
  have l2 : (lit "pwd").length = 3 := by decide
  have l3 : (lit "echo").length = 4 := by decide
  have l4 : (lit "env").length = 3 := by decide
  have l5 : (lit "unset").length = 5 := by decide
  have l6 : (lit "export").length = 6 := by decide
  rw [l1] at e1; rw [l2] at e2; rw [l3] at e3; rw [l4] at e4; rw [l5] at e5; rw [l6] at e6
  unfold buildin_manager_check
  simp only [hx, bind, Except.bind, pure, Except.pure, e1, e2, e3, e4, e5, e6]
  by_cases c1 : lit "cd" <+: name
  · simp [c1]
  by_cases c2 : lit "pwd" <+: name
  · simp [c1, c2]
  by_cases c3 : lit "echo" <+: name
  · simp [c1, c2, c3]
  by_cases c4 : lit "env" <+: name
  · simp [c1, c2, c3, c4]
  by_cases c5 : lit "unset" <+: name
  · simp [c1, c2, c3, c4, c5]
  by_cases c6 : lit "export" <+: name
  · simp [c1, c2, c3, c4, c5, c6]
  simp [c1, c2, c3, c4, c5, c6]

theorem dispatch_eq (h : Store) (mini : Ptr) (name : List Nat) (hx : arg0 h mini = .ok name) :
    buildin_manager h mini =
      .ok (match firstMatch name with
        | some e => invoke h e.2 mini
        | none => h) := by
  have hz := arg0_ne_zero hx
  have hl := ft_strlen_eq name hz
  have e := ft_strncmp_arg name hz
  unfold buildin_manager
  simp only [hx, bind, Except.bind, pure, Except.pure, hl, e, firstMatch, builtins]
  by_cases c1 : name <+: lit "cd"
  · simp [c1]
  by_cases c2 : name <+: lit "pwd"
  · simp [c1, c2]
  by_cases c3 : name <+: lit "echo"
  · simp [c1, c2, c3]
  by_cases c4 : name <+: lit "env"
  · simp [c1, c2, c3, c4]
  by_cases c5 : name <+: lit "unset"
  · simp [c1, c2, c3, c4, c5]
  by_cases c6 : name <+: lit "export"
  · simp [c1, c2, c3, c4, c5, c6]
  simp [c1, c2, c3, c4, c5, c6]

theorem sandwich : ∀ e ∈ builtins, ∀ n ∈ e.1.inits, ∀ t ∈ identifiers, t <+: n → n ∈ identifiers := by
  decide

theorem firstMatch_self : ∀ e ∈ builtins, firstMatch e.1 = some e := by
  decide

/-! ## Facts about the store -/

theorem lookup_filter_ne (m : List (Ptr × Block)) (p q : Ptr) (hqp : q ≠ p) :
    (m.filter (fun e => e.1 ≠ p)).lookup q = m.lookup q := by
  induction m with
  | nil => rfl
  | cons e m ih =>
    obtain ⟨k, b⟩ := e
    by_cases hk : k = p
    · subst hk
      have : (q == k) = false := by simpa using hqp
      simp only [ne_eq, decide_not] at ih
      simp [List.filter_cons, List.lookup_cons, this, ih]
    · by_cases hq : q = k
      · subst hq
        simp [List.filter_cons, hk]
      · have : (q == k) = false := by simpa using hq
        simp only [ne_eq, decide_not] at ih
        simp [List.filter_cons, List.lookup_cons, hk, this, ih]

theorem length_filter_lt (m : List (Ptr × Block)) (p : Ptr) (b : Block)
    (hp : m.lookup p = some b) : (m.filter (fun e => e.1 ≠ p)).length < m.length := by
  induction m with
  | nil => simp at hp
  | cons e m ih =>
    obtain ⟨k, c⟩ := e
    by_cases hk : k = p
    · subst hk
      have := List.length_filter_le (fun e : Ptr × Block => decide (e.1 ≠ k)) m
      simp only [List.filter_cons, List.length_cons]
      simp only [ne_eq, not_true_eq_false, decide_False, Bool.false_eq_true, ↓reduceIte]
      simp only [ne_eq] at this
      omega
    · have hq : (p == k) = false := by simpa using (Ne.symm hk)
      rw [List.lookup_cons, hq] at hp
      have := ih hp
      simp only [List.filter_cons, ne_eq, hk, not_false_eq_true, decide_True, ↓reduceIte,
        List.length_cons]
      simp only [ne_eq] at this
      omega

theorem free_live (h : Store) (p : Ptr) (b : Block) (hp : p ≠ 0) (hb : h.find p = some b) :
    free h p = .ok (h.without p) := by
  simp [free, hp, hb, Store.without]

theorem find_without (h : Store) (p q : Ptr) (hqp : q ≠ p) :
    (h.without p).find q = h.find q := by
  simp only [Store.find, Store.without]
  exact lookup_filter_ne h.mem p q hqp

theorem length_without (h : Store) (p : Ptr) (b : Block) (hb : h.find p = some b) :
    (h.without p).mem.length < h.mem.length :=
  length_filter_lt h.mem p b hb

theorem withoutAll_nil (h : Store) : h.withoutAll [] = h := by
  simp [Store.withoutAll]

theorem withoutAll_cons (h : Store) (p : Ptr) (ps : List Ptr) :
    (h.without p).withoutAll ps = h.withoutAll (p :: ps) := by
  simp only [Store.withoutAll, Store.without, List.filter_filter, List.map_cons,
    List.append_assoc, List.singleton_append, Store.mk.injEq, and_true]
  apply List.filter_congr
  intro e _
  by_cases h1 : e.1 = p <;> by_cases h2 : e.1 ∈ ps <;> simp [h1, h2]

theorem withoutAll_append (h : Store) (ps qs : List Ptr) :
    (h.withoutAll ps).withoutAll qs = h.withoutAll (ps ++ qs) := by
  simp only [Store.withoutAll, List.filter_filter, List.map_append, List.append_assoc,
    Store.mk.injEq, and_true]
  apply List.filter_congr
  intro e _
  by_cases h1 : e.1 ∈ ps <;> by_cases h2 : e.1 ∈ qs <;> simp [h1, h2]

theorem ast_next_live (h : Store) (q a nx : Ptr) (hq : q ≠ 0)
    (hf : h.find q = some (.ast a nx)) : ast_next h q = .ok nx := by
  simp [ast_next, deref, hq, hf]

theorem isCmdList_without (h : Store) (q : Ptr) :
    ∀ (l : List Ptr) (p : Ptr), IsCmdList h p l → q ∉ l → IsCmdList (h.without q) p l := by
  intro l
  induction l with
  | nil => intro p hp _; exact hp
  | cons r l ih =>
    intro p hp hq
    obtain ⟨h1, h2, a, nx, h3, h4⟩ := hp
    have hrq : r ≠ q := fun hc => hq (by simp [hc])
    have hql : q ∉ l := fun hc => hq (by simp [hc])
    refine ⟨h1, h2, a, nx, ?_, ih nx h4 hql⟩
    rw [find_without h q r hrq]
    exact h3

theorem isCmdList_functional (h : Store) :
    ∀ (l1 l2 : List Ptr) (p : Ptr), IsCmdList h p l1 → IsCmdList h p l2 → l1 = l2 := by
  intro l1
  induction l1 with
  | nil =>
    intro l2 p h1 h2
    cases l2 with
    | nil => rfl
    | cons q l2 =>
      obtain ⟨e1, e2, _⟩ := h2
      have h0 : p = 0 := h1
      subst e1
      exact absurd h0 e2
  | cons r l1 ih =>
    intro l2 p h1 h2
    obtain ⟨e1, e2, a, nx, e3, e4⟩ := h1
    cases l2 with
    | nil =>
      have h0 : p = 0 := h2
      subst e1
      exact absurd h0 e2
    | cons q l2 =>
      obtain ⟨f1, f2, b, ny, f3, f4⟩ := h2
      have hrq : r = q := e1.symm.trans f1
      subst hrq
      rw [e3] at f3
      injection f3 with f3
      injection f3 with _ f3
      subst f3
      rw [ih l2 nx e4 f4]

theorem isCmdList_tail (h : Store) :
    ∀ (l : List Ptr) (p q : Ptr), IsCmdList h p l → q ∈ l →
      ∃ l1 l2, l = l1 ++ q :: l2 ∧ IsCmdList h q (q :: l2) := by
  intro l
  induction l with
  | nil => intro p q _ hq; simp at hq
  | cons r l ih =>
    intro p q hp hq
    by_cases hqr : q = r
    · subst hqr
      obtain ⟨_, e2, a, nx, e3, e4⟩ := hp
      exact ⟨[], l, rfl, rfl, e2, a, nx, e3, e4⟩
    · have hql : q ∈ l := by
        rcases List.mem_cons.mp hq with hc | hc
        · exact absurd hc hqr
        · exact hc
      obtain ⟨_, _, a, nx, _, e4⟩ := hp
      obtain ⟨l1, l2, hl, hh⟩ := ih nx q e4 hql
      exact ⟨r :: l1, l2, by simp [hl], hh⟩

theorem isCmdList_nodup (h : Store) :
    ∀ (l : List Ptr) (p : Ptr), IsCmdList h p l → l.Nodup := by
  intro l
  induction l with
  | nil => intro _ _; exact List.nodup_nil
  | cons r l ih =>
    intro p hp
    have hp2 := hp
    obtain ⟨e1, e2, a, nx, e3, e4⟩ := hp
    refine List.nodup_cons.mpr ⟨?_, ih nx e4⟩
    intro hr
    obtain ⟨l1, l2, hl, hh⟩ := isCmdList_tail h l nx r e4 hr
    subst e1
    have := isCmdList_functional h _ _ p hp2 hh
    have hlen := congrArg List.length this
    rw [hl] at hlen
    simp at hlen
    omega

theorem free_cmd_list_loop_spec :
    ∀ (nodes : List Ptr) (h : Store) (p : Ptr) (fuel : Nat), IsCmdList h p nodes →
      nodes.Nodup → h.mem.length < fuel →
      free_cmd_list_loop fuel h p = .ok (h.withoutAll nodes) := by
  intro nodes
  induction nodes with
  | nil =>
    intro h p fuel hp _ hf
    have hp0 : p = 0 := hp
    cases fuel with
    | zero => omega
    | succ f => simp [free_cmd_list_loop, hp0, withoutAll_nil, pure, Except.pure]
  | cons q rest ih =>
    intro h p fuel hp hnd hf
    obtain ⟨e1, e2, a, nx, e3, e4⟩ := hp
    subst e1
    obtain ⟨hq, hrest⟩ := List.nodup_cons.mp hnd
    cases fuel with
    | zero => omega
    | succ f =>
      have hlen := length_without h p _ e3
      have hstep := ih (h.without p) nx f (isCmdList_without h p rest nx e4 hq) hrest (by omega)
      simp only [free_cmd_list_loop, ne_eq, e2, not_false_eq_true, ↓reduceIte,
        ast_next_live h p a nx e2 e3, free_live h p _ e2 e3, bind, Except.bind, hstep,
        withoutAll_cons]

theorem get?_append_length (seen : List Ptr) (x : Ptr) (tl : List Ptr) :
    (seen ++ x :: tl).get? seen.length = some x := by
  induction seen with
  | nil => rfl
  | cons a seen ih => simpa using ih

theorem readCell_live (h : Store) (v : Ptr) (cells : List Ptr) (i : Nat) (p : Ptr) (hv : v ≠ 0)
    (hf : h.find v = some (.vec cells)) (hi : cells.get? i = some p) :
    readCell h v i = .ok p := by
  simp only [readCell, deref, hv, hf, ↓reduceIte, hi]

theorem free_2d_loop_spec (v : Ptr) (past : List Ptr) (hv : v ≠ 0) :
    ∀ (strs seen : List Ptr) (h : Store) (fuel : Nat),
      h.find v = some (.vec (seen ++ (strs ++ 0 :: past))) →
      (∀ s ∈ strs, s ≠ 0 ∧ s ≠ v ∧ ∃ b, h.find s = some b) → strs.Nodup →
      h.mem.length < fuel →
      free_2d_loop fuel h v seen.length = .ok (h.withoutAll strs) := by
  intro strs
  induction strs with
  | nil =>
    intro seen h fuel hf _ _ hfuel
    cases fuel with
    | zero => omega
    | succ f =>
      have hc : readCell h v seen.length = .ok 0 :=
        readCell_live h v _ _ 0 hv hf (get?_append_length seen 0 past)
      simp [free_2d_loop, hc, bind, Except.bind, pure, Except.pure, withoutAll_nil]
  | cons s strs ih =>
    intro seen h fuel hf hlive hnd hfuel
    obtain ⟨hs, hrest⟩ := List.nodup_cons.mp hnd
    obtain ⟨hs0, hsv, b, hb⟩ := hlive s (by simp)
    cases fuel with
    | zero => omega
    | succ f =>
      have hc : readCell h v seen.length = .ok s :=
        readCell_live h v _ _ s hv hf (get?_append_length seen s _)
      have hlen := length_without h s _ hb
      have hf2 : (h.without s).find v = some (.vec ((seen ++ [s]) ++ (strs ++ 0 :: past))) := by
        rw [find_without h s v (Ne.symm hsv), hf]
        simp
      have hlive2 : ∀ t ∈ strs, t ≠ 0 ∧ t ≠ v ∧ ∃ b, (h.without s).find t = some b := by
        intro t ht
        obtain ⟨t0, tv, c, hc⟩ := hlive t (by simp [ht])
        have hts : t ≠ s := fun e => hs (e ▸ ht)
        exact ⟨t0, tv, c, by rw [find_without h s t hts]; exact hc⟩
      have hstep := ih (seen ++ [s]) (h.without s) f hf2 hlive2 hrest (by omega)
      simp only [List.length_append, List.length_singleton] at hstep
      simp only [free_2d_loop, hc, bind, Except.bind, ne_eq, hs0, not_false_eq_true, ↓reduceIte,
        null_check_free_str, free_live h s _ hs0 hb, pure, Except.pure, hstep, withoutAll_cons]

theorem lookup_filter_key (m : List (Ptr × Block)) (keep : Ptr → Bool) (q : Ptr)
    (hq : keep q = true) : (m.filter (fun e => keep e.1)).lookup q = m.lookup q := by
  induction m with
  | nil => rfl
  | cons e m ih =>
    obtain ⟨k, b⟩ := e
    by_cases hk : keep k = true
    · by_cases hqk : q = k
      · subst hqk
        simp [List.filter_cons, hk]
      · have : (q == k) = false := by simpa using hqk
        simp [List.filter_cons, List.lookup_cons, hk, this, ih]
    · have hqk : q ≠ k := fun e => hk (e ▸ hq)
      have : (q == k) = false := by simpa using hqk
      simp [List.filter_cons, List.lookup_cons, hk, this, ih]

theorem find_withoutAll (h : Store) (ps : List Ptr) (q : Ptr) (hq : q ∉ ps) :
    (h.withoutAll ps).find q = h.find q := by
  simp only [Store.find, Store.withoutAll]
  exact lookup_filter_key h.mem (fun k => decide (k ∉ ps)) q (by simpa using hq)

theorem without_eq (h : Store) (p : Ptr) : h.without p = h.withoutAll [p] := by
  rw [← withoutAll_cons, withoutAll_nil]

/-! ## The fuel of the loops never runs out -/

theorem deref_ok {h : Store} {p : Ptr} {b : Block} (hx : deref h p = .ok b) :
    p ≠ 0 ∧ h.find p = some b := by
  unfold deref at hx
  split at hx
  · cases hx
  · rename_i hp
    split at hx
    · rename_i c hc
      cases hx
      exact ⟨hp, hc⟩
    · cases hx

theorem deref_error {h : Store} {p : Ptr} {e : Fault} (hx : deref h p = .error e) :
    e ≠ .outOfFuel := by
  unfold deref at hx
  split at hx
  · cases hx; simp
  · split at hx
    · cases hx
    · cases hx; simp

theorem free_error {h : Store} {p : Ptr} {e : Fault} (hx : free h p = .error e) :
    e ≠ .outOfFuel := by
  unfold free at hx
  split at hx
  · cases hx
  · split at hx
    · cases hx
    · cases hx; simp

theorem free_ok_length {h h2 : Store} {p : Ptr} (hp : p ≠ 0) (hx : free h p = .ok h2) :
    h2.mem.length < h.mem.length := by
  unfold free at hx
  rw [if_neg hp] at hx
  split at hx
  · rename_i b hb
    cases hx
    exact length_filter_lt h.mem p b hb
  · cases hx

theorem free_cmd_list_loop_fuel :
    ∀ (fuel : Nat) (h : Store) (p : Ptr), h.mem.length < fuel →
      free_cmd_list_loop fuel h p ≠ .error .outOfFuel := by
  intro fuel
  induction fuel with
  | zero => intro h p hf; omega
  | succ f ih =>
    intro h p hf
    unfold free_cmd_list_loop
    by_cases hp : p = 0
    · simp [hp, pure, Except.pure]
    · simp only [ne_eq, hp, not_false_eq_true, ↓reduceIte, bind, Except.bind]
      cases hn : ast_next h p with
      | error e =>
        simp only
        intro hc
        cases hc
        unfold ast_next at hn
        split at hn
        · rename_i e2 he2
          cases hn
          exact deref_error he2 rfl
        · cases hn
        · cases hn
      | ok nx =>
        simp only
        cases hfr : free h p with
        | error e =>
          simp only
          intro hc
          cases hc
          exact free_error hfr rfl
        | ok h2 =>
          simp only
          exact ih h2 nx (by have := free_ok_length hp hfr; omega)

theorem free_cmd_list_total (h : Store) (cmds : Ptr) :
    free_cmd_list h cmds ≠ .error .outOfFuel :=
  free_cmd_list_loop_fuel (h.mem.length + 1) h cmds (by omega)

theorem free_2d_loop_fuel :
    ∀ (fuel : Nat) (h : Store) (v : Ptr) (i : Nat), h.mem.length < fuel →
      free_2d_loop fuel h v i ≠ .error .outOfFuel := by
  intro fuel
  induction fuel with
  | zero => intro h v i hf; omega
  | succ f ih =>
    intro h v i hf
    unfold free_2d_loop
    simp only [bind, Except.bind]
    cases hc : readCell h v i with
    | error e =>
      simp only
      intro hcon
      cases hcon
      unfold readCell at hc
      split at hc
      · rename_i e2 he2
        cases hc
        exact deref_error he2 rfl
      · split at hc
        · cases hc
        · cases hc
      · cases hc
    | ok p =>
      simp only
      by_cases hp : p = 0
      · simp [hp, pure, Except.pure]
      · simp only [ne_eq, hp, not_false_eq_true, ↓reduceIte, null_check_free_str, bind,
          Except.bind, pure, Except.pure]
        cases hfr : free h p with
        | error e =>
          simp only
          intro hcon
          cases hcon
          exact free_error hfr rfl
        | ok h2 =>
          simp only
          exact ih h2 v (i + 1) (by have := free_ok_length hp hfr; omega)

theorem free_2d_total (h : Store) (args : Ptr) : free_2d h args ≠ .error .outOfFuel := by
  unfold free_2d
  by_cases ha : args = 0
  · simp [ha, pure, Except.pure, bind, Except.bind]
  · simp only [ha, ↓reduceIte, bind, Except.bind, pure, Except.pure]
    cases hl : free_2d_loop (h.mem.length + 1) h args 0 with
    | error e =>
      simp only
      intro hc
      cases hc
      exact free_2d_loop_fuel (h.mem.length + 1) h args 0 (by omega) hl
    | ok h2 =>
      simp only
      cases hfr : free h2 args with
      | error e =>
        simp only
        intro hc
        cases hc
        exact free_error hfr rfl
      | ok h3 => simp

/-! ## The claims -/

/-- C1, failing input: with `args[0] = "cdx"`, which is none of the six identifiers, the
classifier `buildin_manager_check` returns 1; so it does with `args[0] = "echo1"`. -/
theorem buildin_manager_check_accepts_cdx :
    arg0 (cmdStore (lit "cdx" ++ [0])) 1 = .ok (lit "cdx") ∧ lit "cdx" ∉ identifiers ∧
    buildin_manager_check (cmdStore (lit "cdx" ++ [0])) 1 = .ok 1 ∧
    arg0 (cmdStore (lit "echo1" ++ [0])) 1 = .ok (lit "echo1") ∧ lit "echo1" ∉ identifiers ∧
    buildin_manager_check (cmdStore (lit "echo1" ++ [0])) 1 = .ok 1 := by
  decide

/-- C2, failing input: with `args[0] = "c"`, which is none of the six identifiers, the
dispatcher `buildin_manager` calls `ft_cd`. -/
theorem buildin_manager_calls_ft_cd_on_c :
    arg0 (cmdStore (lit "c" ++ [0])) 1 = .ok (lit "c") ∧ lit "c" ∉ identifiers ∧
    buildin_manager (cmdStore (lit "c" ++ [0])) 1 =
      .ok { mem := (cmdStore (lit "c" ++ [0])).mem, trace := [Event.call .ft_cd 1] } := by
  decide

/-- C3, failing input: on a state whose only present field is `readline`, the first
`free_mini_dto` frees the line buffer and leaves the field pointing to it; the second
`free_mini_dto` on the resulting state frees the same pointer again, a double free. -/
theorem free_mini_dto_twice_double_free :
    free_mini_dto lineStore 1 = .ok lineStoreFreed ∧
    get_readline lineStoreFreed 1 = .ok 2 ∧
    free_mini_dto lineStoreFreed 1 = .error (.invalidFree 2) := by
  decide

/-- C4, failing input: on a state with all four fields present, `free_mini_dto` returns
with the four fields of the record unchanged, none of them `NULL`. -/
theorem free_mini_dto_keeps_fields :
    readMini fullStore 1 = .ok (2, 3, 6, 7) ∧
    free_mini_dto fullStore 1 = .ok fullStoreFreed ∧
    readMini fullStoreFreed 1 = .ok (2, 3, 6, 7) := by
  decide

/-- C5: `free_mini_dto(NULL)`, `free_2d(NULL)` and `null_check_free_str(NULL)` return
without a fault (so without a dereference of the argument) and leave the store as it
was: no object is freed and the trace gets no event. -/
theorem release_of_null (h : Store) :
    free_mini_dto h 0 = .ok h ∧ free_2d h 0 = .ok h ∧ null_check_free_str h 0 = .ok h := by
  refine ⟨?_, ?_, ?_⟩
  · simp [free_mini_dto, pure, Except.pure, bind, Except.bind]
  · simp [free_2d, pure, Except.pure, bind, Except.bind]
  · simp [null_check_free_str, pure, Except.pure, bind, Except.bind]

/-- C6: for a string vector `v` holding the `n >= 0` strings `strs` before its sentinel,
`free_2d` returns without a fault; the calls of `free` it makes are, in this order, one for
each string in index order and then one for the array; the sentinel is not freed; the
objects that leave the store are these and no others. -/
theorem free_2d_frees_strings_then_vector (h : Store) (v : Ptr) (strs : List Ptr)
    (hv : IsStrVec h v strs) :
    free_2d h v =
      .ok { mem := h.mem.filter (fun e => decide (e.1 ∉ strs ++ [v])),
            trace := h.trace ++ (strs ++ [v]).map Event.free } := by
  obtain ⟨hv0, ⟨past, hf⟩, hstrs, hnd⟩ := hv
  have hlive : ∀ s ∈ strs, s ≠ 0 ∧ s ≠ v ∧ ∃ b, h.find s = some b := by
    intro s hs
    obtain ⟨s0, buf, hb⟩ := hstrs s hs
    refine ⟨s0, ?_, _, hb⟩
    intro hsv
    subst hsv
    rw [hf] at hb
    cases hb
  have hloop := free_2d_loop_spec v past hv0 strs [] h (h.mem.length + 1) (by simpa using hf)
    hlive hnd (by omega)
  have hvs : v ∉ strs := fun hc => (hlive v hc).2.1 rfl
  have hv2 : (h.withoutAll strs).find v = some (.vec (strs ++ 0 :: past)) := by
    rw [find_withoutAll h strs v hvs, hf]
  have hfree := free_live (h.withoutAll strs) v _ hv0 hv2
  rw [without_eq, withoutAll_append] at hfree
  simp only [List.length_nil] at hloop
  simp only [free_2d, hv0, ↓reduceIte, hloop, bind, Except.bind, hfree, pure, Except.pure]
  rfl

/-- Witness of C6: on `sampleStore` the vector at `3` holds the strings at `4` and `5`. -/
theorem free_2d_frees_strings_then_vector_witness :
    IsStrVec sampleStore 3 [4, 5] ∧
    free_2d sampleStore 3 =
      .ok { mem := sampleStore.mem.filter (fun e => decide (e.1 ∉ [4, 5] ++ [3])),
            trace := sampleStore.trace ++ ([4, 5] ++ [3]).map Event.free } :=
  have hw : IsStrVec sampleStore 3 [4, 5] :=
    ⟨by decide, ⟨[], by decide⟩, by
      intro s hs
      simp only [List.mem_cons, List.mem_singleton, List.not_mem_nil, or_false] at hs
      rcases hs with rfl | rfl
      · exact ⟨by decide, _, rfl⟩
      · exact ⟨by decide, _, rfl⟩, by decide⟩
  ⟨hw, free_2d_frees_strings_then_vector sampleStore 3 [4, 5] hw⟩

/-- C7: for a command list whose nodes are, front to back, `nodes` (`n >= 0` of them, the
last with a `NULL` link), `free_cmd_list` returns, and without a fault: no `next` is read
from a node that has left the store.  The calls of `free` it makes are one for each node, in
front-to-back order, and the objects that leave the store are the nodes and no others. -/
theorem free_cmd_list_frees_nodes_in_order (h : Store) (cmds : Ptr) (nodes : List Ptr)
    (hl : IsCmdList h cmds nodes) :
    free_cmd_list h cmds =
      .ok { mem := h.mem.filter (fun e => decide (e.1 ∉ nodes)),
            trace := h.trace ++ nodes.map Event.free } :=
  free_cmd_list_loop_spec nodes h cmds (h.mem.length + 1) hl (isCmdList_nodup h nodes cmds hl)
    (by omega)

/-- Witness of C7: on `sampleStore` the command list at `7` has the nodes `7` and `9`. -/
theorem free_cmd_list_frees_nodes_in_order_witness :
    IsCmdList sampleStore 7 [7, 9] ∧
    free_cmd_list sampleStore 7 =
      .ok { mem := sampleStore.mem.filter (fun e => decide (e.1 ∉ [7, 9])),
            trace := sampleStore.trace ++ [7, 9].map Event.free } :=
  have hw : IsCmdList sampleStore 7 [7, 9] :=
    ⟨rfl, by decide, 0, 9, rfl, rfl, by decide, 0, 0, rfl, rfl⟩
  ⟨hw, free_cmd_list_frees_nodes_in_order sampleStore 7 [7, 9] hw⟩

/-- C8: for a string `name` at `args[0]`, the classifier returns 1 and the dispatcher calls
some handler if and only if `name` is one of the six identifiers; and when `name` is the
identifier of an entry of `builtins`, the dispatcher calls the handler of that entry, once,
and does nothing else. -/
theorem classifier_and_dispatcher_agree (h : Store) (mini : Ptr) (name : List Nat)
    (hx : arg0 h mini = .ok name) :
    ((buildin_manager_check h mini = .ok 1 ∧
        ∃ f, buildin_manager h mini = .ok { h with trace := h.trace ++ [Event.call f mini] }) ↔
      name ∈ identifiers) ∧
    (∀ e ∈ builtins, name = e.1 →
      buildin_manager h mini = .ok { h with trace := h.trace ++ [Event.call e.2 mini] }) := by
  have hd := dispatch_eq h mini name hx
  have hc := check_eq h mini name hx
  have hsecond : ∀ e ∈ builtins, name = e.1 →
      buildin_manager h mini = .ok { h with trace := h.trace ++ [Event.call e.2 mini] } := by
    intro e he hname
    rw [hd, hname, firstMatch_self e he]
    rfl
  refine ⟨⟨?_, ?_⟩, hsecond⟩
  · rintro ⟨h1, f, h2⟩
    rw [hc] at h1
    rw [hd] at h2
    have hpre : ∃ t ∈ identifiers, t <+: name := by
      by_contra hno
      have hnone : ¬ (lit "cd" <+: name ∨ lit "pwd" <+: name ∨ lit "echo" <+: name ∨
            lit "env" <+: name ∨ lit "unset" <+: name ∨ lit "export" <+: name) := by
        intro hor
        apply hno
        rcases hor with c | c | c | c | c | c
        · exact ⟨_, by decide, c⟩
        · exact ⟨_, by decide, c⟩
        · exact ⟨_, by decide, c⟩
        · exact ⟨_, by decide, c⟩
        · exact ⟨_, by decide, c⟩
        · exact ⟨_, by decide, c⟩
      rw [if_neg hnone] at h1
      cases h1
    obtain ⟨t, ht, htn⟩ := hpre
    cases hm : firstMatch name with
    | none =>
      rw [hm] at h2
      have h3 := Except.ok.inj h2
      have := congrArg (fun s => s.trace.length) h3
      simp at this
    | some e =>
      have hfind := List.find?_some hm
      have hmem := List.mem_of_find?_eq_some hm
      have hne : name <+: e.1 := by simpa using hfind
      exact sandwich e hmem name ((List.mem_inits _ _).mpr hne) t ht htn
  · intro hname
    have hex : ∃ e ∈ builtins, name = e.1 := by
      simp only [identifiers, List.mem_map] at hname
      obtain ⟨e, he, hen⟩ := hname
      exact ⟨e, he, hen.symm⟩
    obtain ⟨e, he, hen⟩ := hex
    refine ⟨?_, e.2, hsecond e he hen⟩
    rw [hc]
    have hor : lit "cd" <+: name ∨ lit "pwd" <+: name ∨ lit "echo" <+: name ∨
            lit "env" <+: name ∨ lit "unset" <+: name ∨ lit "export" <+: name := by
      subst hen
      simp only [builtins, List.mem_cons, List.mem_singleton, List.not_mem_nil, or_false] at he
      rcases he with rfl | rfl | rfl | rfl | rfl | rfl <;> simp
    rw [if_pos hor]

/-- Witness of C8: `args[0] = "env"`. -/
theorem classifier_and_dispatcher_agree_witness :
    arg0 (cmdStore (lit "env" ++ [0])) 1 = .ok (lit "env") ∧
    (((buildin_manager_check (cmdStore (lit "env" ++ [0])) 1 = .ok 1 ∧
        ∃ f, buildin_manager (cmdStore (lit "env" ++ [0])) 1 =
          .ok { cmdStore (lit "env" ++ [0]) with
                trace := (cmdStore (lit "env" ++ [0])).trace ++ [Event.call f 1] }) ↔
      lit "env" ∈ identifiers) ∧
    (∀ e ∈ builtins, lit "env" = e.1 →
      buildin_manager (cmdStore (lit "env" ++ [0])) 1 =
        .ok { cmdStore (lit "env" ++ [0]) with
              trace := (cmdStore (lit "env" ++ [0])).trace ++ [Event.call e.2 1] })) :=
  ⟨by decide, classifier_and_dispatcher_agree (cmdStore (lit "env" ++ [0])) 1 (lit "env")
    (by decide)⟩

/-- C9: for a string `name` at `args[0]`, either `name` is a prefix of no identifier and the
dispatcher does nothing, or the dispatcher calls, once, the handler of the first entry of
`builtins` (in the order `cd`, `pwd`, `echo`, `env`, `unset`, `export`) of whose identifier
`name` is a prefix, the empty and the improper prefix included. -/
theorem buildin_manager_first_identifier_with_prefix (h : Store) (mini : Ptr)
    (name : List Nat) (hx : arg0 h mini = .ok name) :
    ((∀ e ∈ builtins, ¬ name <+: e.1) ∧ buildin_manager h mini = .ok h) ∨
    (∃ before e after, builtins = before ++ e :: after ∧ (∀ e2 ∈ before, ¬ name <+: e2.1) ∧
      name <+: e.1 ∧
      buildin_manager h mini = .ok { h with trace := h.trace ++ [Event.call e.2 mini] }) := by
  have hd := dispatch_eq h mini name hx
  cases hm : firstMatch name with
  | none =>
    left
    rw [hm] at hd
    refine ⟨?_, hd⟩
    have := List.find?_eq_none.mp hm
    simpa using this
  | some e =>
    right
    rw [hm] at hd
    obtain ⟨hp, before, after, hsplit, hbefore⟩ := List.find?_eq_some.mp hm
    refine ⟨before, e, after, hsplit, ?_, by simpa using hp, hd⟩
    intro e2 he2
    simpa using hbefore e2 he2

/-- Witness of C9: `args[0] = "e"` is dispatched by the theorem, and on the three strings
`""`, `"e"` and `"cdx"` the dispatcher calls `ft_cd`, calls `ft_echo`, and calls nothing. -/
theorem buildin_manager_first_identifier_with_prefix_witness :
    arg0 (cmdStore (lit "e" ++ [0])) 1 = .ok (lit "e") ∧
    (((∀ e ∈ builtins, ¬ lit "e" <+: e.1) ∧
        buildin_manager (cmdStore (lit "e" ++ [0])) 1 = .ok (cmdStore (lit "e" ++ [0]))) ∨
      (∃ before e after, builtins = before ++ e :: after ∧
        (∀ e2 ∈ before, ¬ lit "e" <+: e2.1) ∧ lit "e" <+: e.1 ∧
        buildin_manager (cmdStore (lit "e" ++ [0])) 1 =
          .ok { cmdStore (lit "e" ++ [0]) with
                trace := (cmdStore (lit "e" ++ [0])).trace ++ [Event.call e.2 1] })) ∧
    (buildin_manager (cmdStore (lit "" ++ [0])) 1).map (fun s => s.trace) =
      .ok [Event.call .ft_cd 1] ∧
    (buildin_manager (cmdStore (lit "e" ++ [0])) 1).map (fun s => s.trace) =
      .ok [Event.call (.ft_echo 1) 1] ∧
    (buildin_manager (cmdStore (lit "cdx" ++ [0])) 1).map (fun s => s.trace) = .ok [] :=
  ⟨by decide, buildin_manager_first_identifier_with_prefix (cmdStore (lit "e" ++ [0])) 1
    (lit "e") (by decide), by decide, by decide, by decide⟩

/-- C10: for a string `name` at `args[0]`, the classifier returns 1 if and only if one of the
six identifiers is a prefix of `name`, and 0 otherwise; it returns the same value in every
state in which `args[0]` is `name`.  It returns a value and no store: it changes nothing. -/
theorem buildin_manager_check_identifier_is_prefix (h : Store) (mini : Ptr)
    (name : List Nat) (hx : arg0 h mini = .ok name) :
    (buildin_manager_check h mini = .ok 1 ↔ ∃ t ∈ identifiers, t <+: name) ∧
    (buildin_manager_check h mini = .ok 0 ↔ ¬ ∃ t ∈ identifiers, t <+: name) ∧
    (∀ (h2 : Store) (mini2 : Ptr), arg0 h2 mini2 = .ok name →
      buildin_manager_check h2 mini2 = buildin_manager_check h mini) := by
  have hc := check_eq h mini name hx
  have hiff : (lit "cd" <+: name ∨ lit "pwd" <+: name ∨ lit "echo" <+: name ∨
      lit "env" <+: name ∨ lit "unset" <+: name ∨ lit "export" <+: name) ↔
      ∃ t ∈ identifiers, t <+: name := by
    simp [identifiers, builtins]
  rw [hc, ← hiff]
  refine ⟨?_, ?_, ?_⟩
  · constructor
    · intro h1
      by_contra hno
      rw [if_neg hno] at h1
      cases h1
    · intro hor
      rw [if_pos hor]
  · constructor
    · intro h1 hor
      rw [if_pos hor] at h1
      cases h1
    · intro hno
      rw [if_neg hno]
  · intro h2 mini2 hx2
    rw [check_eq h2 mini2 name hx2]

/-- Witness of C10: `args[0] = "echo1"` begins with `echo`. -/
theorem buildin_manager_check_identifier_is_prefix_witness :
    arg0 (cmdStore (lit "echo1" ++ [0])) 1 = .ok (lit "echo1") ∧
    (buildin_manager_check (cmdStore (lit "echo1" ++ [0])) 1 = .ok 1 ↔
      ∃ t ∈ identifiers, t <+: lit "echo1") ∧
    (buildin_manager_check (cmdStore (lit "echo1" ++ [0])) 1 = .ok 0 ↔
      ¬ ∃ t ∈ identifiers, t <+: lit "echo1") ∧
    (∀ (h2 : Store) (mini2 : Ptr), arg0 h2 mini2 = .ok (lit "echo1") →
      buildin_manager_check h2 mini2 =
        buildin_manager_check (cmdStore (lit "echo1" ++ [0])) 1) :=
  ⟨by decide, buildin_manager_check_identifier_is_prefix (cmdStore (lit "echo1" ++ [0])) 1
    (lit "echo1") (by decide)⟩

end Minishell
